/-
Verification of the xtmono/plugins repository (multicni dispatcher and
host-device single-device handler) against its natural-language
specification.  The Go sources are shallowly embedded: pure helpers become
Lean functions, the netlink/kernel and Kubernetes side effects become
explicit environments and a world state of links, and every fallible Go
call is an Except value.
-/
import Mathlib

namespace Multicni

/-- State of the closure returned by getifname (multicni.go lines 95 to 119).
The Go closure captures ifname, prefix and ifIdx; here they are a record and
produce is the closure body. The field pfx is the Go local named prefix,
renamed because prefix is reserved in Lean. -/
structure IfGen where
  ifname : String
  pfx : String
  ifIdx : Int
deriving DecidableEq

/-- Model of strings.LastIndexAny(s, "0123456789"): index of the last digit
character of the string, none when no digit occurs.  The Go function returns
a byte index; interface names are ASCII so the rune index used here
coincides. -/
def lastIndexAnyAux : List Char → Nat → Option Nat → Option Nat
  | [], _, acc => acc
  | c :: rest, i, acc => lastIndexAnyAux rest (i + 1) (if c.isDigit then some i else acc)

def lastDigitIndex (s : String) : Option Nat :=
  lastIndexAnyAux s.data 0 none

/-- Accumulator pass turning a digit list into its decimal value. -/
def digitsValAux : Nat → List Char → Nat
  | acc, [] => acc
  | acc, c :: rest => digitsValAux (acc * 10 + (c.toNat - 48)) rest

/-- Model of strconv.Atoi restricted to the arguments getifname feeds it,
which always start with a digit: on an all-digit string it returns the value
and ok, otherwise value 0 and not ok (the Go syntax-error case also reports
value 0). -/
def atoi (s : String) : Int × Bool :=
  if s.data ≠ [] ∧ s.data.all Char.isDigit then (Int.ofNat (digitsValAux 0 s.data), true)
  else (0, false)

/-- Embedding of getifname (multicni.go lines 95 to 119).  Note the source
line 105 writes: if i, err := strconv.Atoi(...); err != nil then ifIdx = i —
the assignment happens only on FAILURE of the parse, so ifIdx always ends up
0 (the failed parse also yields i = 0). -/
def getifname (ifname : String) : IfGen :=
  match lastDigitIndex ifname with
  | none => { ifname := ifname, pfx := ifname, ifIdx := 0 }
  | some idx =>
    let runes := ifname.data
    let pfx := String.mk (runes.take idx)
    let suffix := String.mk (runes.drop idx)
    let r := atoi suffix
    { ifname := ifname, pfx := pfx, ifIdx := if r.2 then 0 else r.1 }

/-- One call of the closure returned by getifname: yields the next interface
name and the isDefault flag (true exactly on the very first call). -/
def produce (g : IfGen) : (String × Bool) × IfGen :=
  if g.ifIdx = 0 then ((g.ifname, true), { g with ifIdx := g.ifIdx + 1 })
  else ((g.pfx ++ toString g.ifIdx, false), { g with ifIdx := g.ifIdx + 1 })

/-- The list of the first n produced (name, primary) pairs. -/
def produceList (g : IfGen) : Nat → List (String × Bool)
  | 0 => []
  | n + 1 =>
    let r := produce g
    r.1 :: produceList r.2 n

/-- Modelled from the spec: split a base name into a non-numeric prefix and
an optional trailing numeric suffix, the whole string being the prefix when
no trailing digit is present.  This follows the words of spec section 4.4
and is compared against the source definition getifname. -/
def specSplit (s : String) : String × Option Nat :=
  let rev := s.data.reverse
  let digs := (rev.takeWhile Char.isDigit).reverse
  let pfx := (rev.dropWhile Char.isDigit).reverse
  (String.mk pfx, if digs.isEmpty then none else some (digitsValAux 0 digs))

/-- Modelled from the spec: the name sequence claimed in spec section 4.4 —
first call the exact base name marked primary, every later call the
non-numeric prefix concatenated with an incrementing integer starting right
after the trailing suffix (or at 1 when there is none). -/
def specProduceList (b : String) (n : Nat) : List (String × Bool) :=
  let sp := specSplit b
  let start := (match sp.2 with | none => 0 | some k => k) + 1
  match n with
  | 0 => []
  | m + 1 => (b, true) :: (List.range m).map (fun i => (sp.1 ++ toString (start + i), false))

/-- A JSON value stored in a plugin entry map.  checkPlugin and the name
comparisons only ever distinguish strings from everything else, so the other
shapes are collapsed into one constructor. -/
inductive JVal
  | str (s : String)
  | other
deriving DecidableEq

/-- One entry of the NetConf plugins list: the Go map of string to
interface value. -/
abbrev Plugin := List (String × JVal)

/-- Go map indexing: returns none when the key is absent. -/
def mlookup (p : Plugin) (k : String) : Option JVal :=
  (p.find? (fun kv => kv.1 == k)).map (fun kv => kv.2)

/-- Model of isString applied to a map access: nil or a non-string value
both fail the check. -/
def isStringV : Option JVal → Bool
  | some (.str _) => true
  | _ => false

/-- Go comparison plugin["name"] == s between an interface value and a
string: true exactly when the stored value is that string. -/
def nameEq (p : Plugin) (s : String) : Bool :=
  match mlookup p "name" with
  | some (.str t) => t == s
  | _ => false

/-- Embedding of checkPlugin (multicni.go lines 121 to 129). -/
def checkPlugin (p : Plugin) : Except String Unit :=
  if !isStringV (mlookup p "type") then .error "must have the field type with a string"
  else if !isStringV (mlookup p "name") then .error "must have the field name with a string"
  else .ok ()

/-- The multicni NetConf after JSON unmarshalling: the default plugin name
and the static plugin list (the kubeconfig path only feeds the external
client and is part of the metadata environment). -/
structure NetConf where
  deflt : String
  plugins : List Plugin

/-- Validation part of loadNetConf (multicni.go lines 62 to 76), applied to
the already unmarshalled structure. -/
def loadNetConfCheck (c : NetConf) : Except String NetConf :=
  if c.deflt == "" then .error "default field must specify default plugin name"
  else if c.plugins.isEmpty then .error "no plugins list"
  else .ok c

/-- The plugin validation loop at the top of cmdAdd and cmdDel
(multicni.go lines 234 to 238 and 294 to 298). -/
def checkPlugins : List Plugin → Except String Unit
  | [] => .ok ()
  | p :: rest =>
    match checkPlugin p with
    | .error e => .error ("Multicni: Err in plugin conf: " ++ e)
    | .ok _ => checkPlugins rest

/-- Environment for the external Kubernetes metadata source: success of
createK8sClient, the outcome of getK8sPodAnnotations, and the behavior of
the external encoding/json unmarshal of a string list used by
parsePodNetworkObject. -/
structure MetaEnv where
  clientOk : Bool
  annots : Except String (List (String × String))
  unmarshalStrings : String → Option (List String)

/-- Embedding of parsePodNetworkObject (multicni.go lines 216 to 223); the
JSON decoding itself is the external library call in the environment. -/
def parsePodNetworkObject (env : MetaEnv) (s : String) : Except String (List String) :=
  match env.unmarshalStrings s with
  | some l => .ok l
  | none => .error "parsePodNetworkObject: failed to load pod plugin"

/-- Go string map indexing with the zero value for a missing key. -/
def alookup (a : List (String × String)) (k : String) : String :=
  ((a.find? (fun kv => kv.1 == k)).map (fun kv => kv.2)).getD ""

/-- The metadata block shared by cmdAdd and cmdDel (multicni.go lines 240
to 252 and 300 to 312): client and annotation failures are swallowed by the
err == nil guards, while a parse failure of a present, non-empty
cni-plugins annotation returns an error. -/
def getPodPlugins (env : MetaEnv) : Except String (List String) :=
  if env.clientOk then
    match env.annots with
    | .ok annot =>
      let plugins := alookup annot "cni-plugins"
      if plugins != "" then
        match parsePodNetworkObject env plugins with
        | .ok l => .ok l
        | .error _ => .error ("Multicni: Err in pod annotation cni-plugins: " ++ plugins)
      else .ok []
    | .error _ => .ok []
  else .ok []

/-- Observable actions of one dispatcher run: a delegate Add or Del was
invoked with an allocated interface name, or a result document was printed
to the caller. -/
inductive Event
  | invokedAdd (p : Plugin) (iface : String)
  | invokedDel (p : Plugin) (iface : String)
  | printed (r : String)
deriving DecidableEq

/-- Environment for the external delegate invocations: the outcome of
invoke.DelegateAdd (returning the result document) and invoke.DelegateDel
for each plugin entry. -/
structure DelegateEnv where
  invokeAdd : Plugin → Except String String
  invokeDel : Plugin → Except String Unit

def okStr : Except String String → String
  | .ok s => s
  | .error _ => ""

def isOkB {α : Type} : Except String α → Bool
  | .ok _ => true
  | .error _ => false

/-- Embedding of delegateAdd (multicni.go lines 131 to 154): draw the next
interface name from the allocator, invoke the delegate, and print its
result exactly when the allocator marked this name primary (isDefault).
The JSON re-serialization of the map and os.Setenv are modelled as always
succeeding; result.Print is modelled by the printed event. -/
def delegateAdd (env : DelegateEnv) (st : IfGen) (p : Plugin) :
    Except String Unit × IfGen × List Event :=
  let r := produce st
  let iface := r.1.1
  let isDefault := r.1.2
  let st1 := r.2
  match env.invokeAdd p with
  | .error e => (.error ("error in invoke Delegate add: " ++ e), st1, [.invokedAdd p iface])
  | .ok result =>
    if isDefault then (.ok (), st1, [.invokedAdd p iface, .printed result])
    else (.ok (), st1, [.invokedAdd p iface])

/-- Embedding of delegateDel (multicni.go lines 156 to 175): same shape as
delegateAdd but nothing is ever printed and the primary flag is ignored. -/
def delegateDel (env : DelegateEnv) (st : IfGen) (p : Plugin) :
    Except String Unit × IfGen × List Event :=
  let r := produce st
  let iface := r.1.1
  let st1 := r.2
  match env.invokeDel p with
  | .error e => (.error ("error in invoke Delegate del: " ++ e), st1, [.invokedDel p iface])
  | .ok _ => (.ok (), st1, [.invokedDel p iface])

/-- The inner loop of the dynamic branch: first static plugin entry whose
name field equals the dynamic name. -/
def findPlugin (plugins : List Plugin) (name : String) : Option Plugin :=
  plugins.find? (fun p => nameEq p name)

/-- Resolution of a whole dynamic list against the static set, in order;
none as soon as one name has no static entry. -/
def resolveAll (plugins : List Plugin) : List String → Option (List Plugin)
  | [] => some []
  | pod :: rest =>
    match findPlugin plugins pod, resolveAll plugins rest with
    | some p, some ps => some (p :: ps)
    | _, _ => none

/-- The dynamic-list loop of cmdAdd (multicni.go lines 258 to 269): resolve
each dynamic name in order, delegate to the match, abort with an error on a
delegate failure or an unresolved name. -/
def addPodPlugins (env : DelegateEnv) (plugins : List Plugin) :
    IfGen → List String → Except String Unit × IfGen × List Event
  | st, [] => (.ok (), st, [])
  | st, pod :: rest =>
    match findPlugin plugins pod with
    | none => (.error ("failed to find plugin: " ++ pod), st, [])
    | some p =>
      match delegateAdd env st p with
      | (.error e, st1, evs) => (.error e, st1, evs)
      | (.ok _, st1, evs) =>
        let r := addPodPlugins env plugins st1 rest
        (r.1, r.2.1, evs ++ r.2.2)

/-- The default branch of cmdAdd (multicni.go lines 271 to 279): delegate to
the first static entry named like the default and stop (break), silently do
nothing when no entry matches. -/
def addDefault (env : DelegateEnv) (deflt : String) :
    IfGen → List Plugin → Except String Unit × IfGen × List Event
  | st, [] => (.ok (), st, [])
  | st, p :: rest =>
    if nameEq p deflt then
      match delegateAdd env st p with
      | (.error e, st1, evs) => (.error e, st1, evs)
      | (.ok _, st1, evs) => (.ok (), st1, evs)
    else addDefault env deflt st rest

/-- The dynamic-list loop of cmdDel (multicni.go lines 318 to 329). -/
def delPodPlugins (env : DelegateEnv) (plugins : List Plugin) :
    IfGen → List String → Except String Unit × IfGen × List Event
  | st, [] => (.ok (), st, [])
  | st, pod :: rest =>
    match findPlugin plugins pod with
    | none => (.error ("failed to find plugin: " ++ pod), st, [])
    | some p =>
      match delegateDel env st p with
      | (.error e, st1, evs) => (.error e, st1, evs)
      | (.ok _, st1, evs) =>
        let r := delPodPlugins env plugins st1 rest
        (r.1, r.2.1, evs ++ r.2.2)

/-- The default branch of cmdDel (multicni.go lines 331 to 339). -/
def delDefault (env : DelegateEnv) (deflt : String) :
    IfGen → List Plugin → Except String Unit × IfGen × List Event
  | st, [] => (.ok (), st, [])
  | st, p :: rest =>
    if nameEq p deflt then
      match delegateDel env st p with
      | (.error e, st1, evs) => (.error e, st1, evs)
      | (.ok _, st1, evs) => (.ok (), st1, evs)
    else delDefault env deflt st rest

/-- Embedding of cmdAdd (multicni.go lines 225 to 283): validate the
configuration, fetch the dynamic plugin list from the metadata source,
then run either the dynamic loop or the default branch with a fresh
interface-name allocator seeded from args.IfName. -/
def cmdAdd (conf : NetConf) (menv : MetaEnv) (denv : DelegateEnv) (ifName : String) :
    Except String Unit × List Event :=
  match loadNetConfCheck conf with
  | .error e => (.error ("err in loading netconf: " ++ e), [])
  | .ok c =>
    match checkPlugins c.plugins with
    | .error e => (.error e, [])
    | .ok _ =>
      match getPodPlugins menv with
      | .error e => (.error e, [])
      | .ok podPlugins =>
        let st := getifname ifName
        if podPlugins.length > 0 then
          let r := addPodPlugins denv c.plugins st podPlugins
          (r.1, r.2.2)
        else
          let r := addDefault denv c.deflt st c.plugins
          (r.1, r.2.2)

/-- Embedding of cmdDel (multicni.go lines 285 to 343), identical in shape
to cmdAdd but delegating Del and never printing. -/
def cmdDel (conf : NetConf) (menv : MetaEnv) (denv : DelegateEnv) (ifName : String) :
    Except String Unit × List Event :=
  match loadNetConfCheck conf with
  | .error e => (.error ("err in loading netconf: " ++ e), [])
  | .ok c =>
    match checkPlugins c.plugins with
    | .error e => (.error e, [])
    | .ok _ =>
      match getPodPlugins menv with
      | .error e => (.error e, [])
      | .ok podPlugins =>
        let st := getifname ifName
        if podPlugins.length > 0 then
          let r := delPodPlugins denv c.plugins st podPlugins
          (r.1, r.2.2)
        else
          let r := delDefault denv c.deflt st c.plugins
          (r.1, r.2.2)

/-- The delegate Add invocations recorded in an event list, in order. -/
def invokedAdds : List Event → List Plugin
  | [] => []
  | .invokedAdd p _ :: rest => p :: invokedAdds rest
  | _ :: rest => invokedAdds rest

/-- The delegate Del invocations recorded in an event list, in order. -/
def invokedDels : List Event → List Plugin
  | [] => []
  | .invokedDel p _ :: rest => p :: invokedDels rest
  | _ :: rest => invokedDels rest

/-- The result documents printed to the caller, in order. -/
def printedList : List Event → List String
  | [] => []
  | .printed r :: rest => r :: printedList rest
  | _ :: rest => printedList rest

/-- A metadata environment that yields no dynamic plugin list at all: the
degraded behavior the spec ascribes to metadata failures. -/
def degradedMeta : MetaEnv :=
  { clientOk := true, annots := .ok [], unmarshalStrings := fun _ => none }

/-- The non-primary tail the allocator actually produces: pfx concatenated
with a counter starting at j, every entry marked non-primary. -/
def namesFrom (pfx : String) : Int → Nat → List (String × Bool)
  | _, 0 => []
  | j, n + 1 => (pfx ++ toString j, false) :: namesFrom pfx (j + 1) n

/-- Concrete static plugin entry named A, used to instantiate theorems. -/
def wPlugA : Plugin := [("name", .str "A"), ("type", .str "t")]

/-- Concrete static plugin entry named C, used to instantiate theorems. -/
def wPlugC : Plugin := [("name", .str "C"), ("type", .str "t")]

/-- Static configuration with default A and entries A then C. -/
def wConfCA : NetConf := { deflt := "A", plugins := [wPlugA, wPlugC] }

/-- Static configuration whose default name Z matches no entry. -/
def wConfZ : NetConf := { deflt := "Z", plugins := [wPlugA] }

/-- Delegate environment whose Add results name the plugin that produced
them and whose Del always succeeds. -/
def wDenv : DelegateEnv :=
  { invokeAdd := fun p =>
      .ok (match mlookup p "name" with | some (.str s) => "res-" ++ s | _ => "res"),
    invokeDel := fun _ => .ok () }

/-- Metadata environment whose annotation parses to the dynamic list C then
A. -/
def wMetaCA : MetaEnv :=
  { clientOk := true, annots := .ok [("cni-plugins", "x")],
    unmarshalStrings := fun _ => some ["C", "A"] }

/-- Metadata environment whose annotation parses to one unresolvable
name. -/
def wMetaMissing : MetaEnv :=
  { clientOk := true, annots := .ok [("cni-plugins", "x")],
    unmarshalStrings := fun _ => some ["missing"] }

end Multicni

namespace HostDevice

/-- The two network namespaces the host-device plugin moves links between. -/
inductive NS
  | host
  | container
deriving DecidableEq, BEq

/-- A network link as the kernel holds it: interface index (the stable
identity), current name, stored alias, hardware address bytes,
administrative up flag, and the namespace it currently lives in. -/
structure Link where
  idx : Nat
  name : String
  linkAlias : String
  hwaddr : List Nat
  up : Bool
  netns : NS
deriving DecidableEq

/-- The kernel state the plugin manipulates: all links of both namespaces. -/
abbrev World := List Link

def findIdx (w : World) (i : Nat) : Option Link :=
  w.find? (fun l => l.idx == i)

def updateIdx (w : World) (i : Nat) (f : Link → Link) : World :=
  w.map (fun l => if l.idx == i then f l else l)

/-- Model of netlink.LinkByName executed while the given namespace is the
current one: first link of that namespace with that name. -/
def linkByName (w : World) (ns : NS) (n : String) : Option Link :=
  w.find? (fun l => l.netns == ns && l.name == n)

/-- Model of netlink.LinkSetDown: external kernel operation, fails only when
the link no longer exists; on failure the world is unchanged. -/
def linkSetDown (w : World) (i : Nat) : Except String Unit × World :=
  match findIdx w i with
  | none => (.error "link not found", w)
  | some _ => (.ok (), updateIdx w i (fun l => { l with up := false }))

/-- Model of netlink.LinkSetNsFd: external kernel operation moving a link
into a target namespace; the kernel refuses the move when the target
namespace already holds a link of the same name. -/
def linkSetNsFd (w : World) (i : Nat) (target : NS) : Except String Unit × World :=
  match findIdx w i with
  | none => (.error "link not found", w)
  | some l =>
    if (linkByName w target l.name).isSome then (.error "name exists in target namespace", w)
    else (.ok (), updateIdx w i (fun l2 => { l2 with netns := target }))

/-- Kernel interface-name validation (dev_valid_name, simplified to the
property the plugin relies on): the empty name is rejected. -/
def devValidName (s : String) : Bool :=
  s != ""

/-- Model of netlink.LinkSetName: external kernel rename, rejected for an
invalid (empty) name or a name already taken in the same namespace. -/
def linkSetName (w : World) (i : Nat) (n : String) : Except String Unit × World :=
  match findIdx w i with
  | none => (.error "link not found", w)
  | some l =>
    if !devValidName n then (.error "invalid interface name", w)
    else if (w.find? (fun l2 => l2.idx != i && l2.netns == l.netns && l2.name == n)).isSome then
      (.error "name exists", w)
    else (.ok (), updateIdx w i (fun l2 => { l2 with name := n }))

/-- Model of netlink.LinkSetAlias: stores the alias attribute. -/
def linkSetAlias (w : World) (i : Nat) (a : String) : Except String Unit × World :=
  match findIdx w i with
  | none => (.error "link not found", w)
  | some _ => (.ok (), updateIdx w i (fun l => { l with linkAlias := a }))

/-- Embedding of moveLinkIn (host-device.go lines 198 to 232): down the host
device, move it into the container namespace, then inside that namespace
re-resolve it by its old name, remember that name as the alias, rename it to
ifName and re-resolve by the new name. hostDev is the attribute snapshot the
caller obtained from getLink. -/
def moveLinkIn (w : World) (hostDev : Link) (ifName : String) : Except String Link × World :=
  match linkSetDown w hostDev.idx with
  | (.error e, w1) => (.error e, w1)
  | (.ok _, w1) =>
    match linkSetNsFd w1 hostDev.idx .container with
    | (.error e, w2) => (.error e, w2)
    | (.ok _, w2) =>
      match linkByName w2 .container hostDev.name with
      | none => (.error "failed to find moved device", w2)
      | some contDev =>
        match linkSetAlias w2 contDev.idx hostDev.name with
        | (.error e, w3) => (.error e, w3)
        | (.ok _, w3) =>
          match linkSetName w3 contDev.idx ifName with
          | (.error e, w4) => (.error e, w4)
          | (.ok _, w4) =>
            match linkByName w4 .container ifName with
            | none => (.error "failed to find renamed device", w4)
            | some contDev2 => (.ok contDev2, w4)

/-- Embedding of moveLinkOut (host-device.go lines 234 to 259): inside the
container namespace resolve ifName, down it, rename it back to its stored
alias and move it to the host namespace.  There is no explicit empty-alias
check in the source; an empty alias is rejected by the kernel rename. -/
def moveLinkOut (w : World) (ifName : String) : Except String Unit × World :=
  match linkByName w .container ifName with
  | none => (.error "failed to find container device", w)
  | some dev =>
    match linkSetDown w dev.idx with
    | (.error e, w1) => (.error e, w1)
    | (.ok _, w1) =>
      match linkSetName w1 dev.idx dev.linkAlias with
      | (.error e, w2) => (.error e, w2)
      | (.ok _, w2) =>
        match linkSetNsFd w2 dev.idx .host with
        | (.error e, w3) => (.error e, w3)
        | (.ok _, w3) => (.ok (), w3)

/-- The host-device NetConf selectors. -/
structure NetConf where
  devices : List String
  hwaddrs : List String
  kernelpaths : List String
deriving DecidableEq

/-- Validation part of loadConf (host-device.go lines 53 to 64). -/
def loadConfCheck (n : NetConf) : Except String NetConf :=
  if n.devices.isEmpty && n.hwaddrs.isEmpty && n.kernelpaths.isEmpty then
    .error "specify either device, hwaddr or kernelpath"
  else .ok n

/-- List prefix test, used to model strings.HasPrefix and filepath.IsAbs
without the non-reducing byte-level string primitives. -/
def pfxOf : List Char → List Char → Bool
  | [], _ => true
  | _ :: _, [] => false
  | a :: as, b :: bs => a == b && pfxOf as bs

def goHasPfx (s pre : String) : Bool :=
  pfxOf pre.data s.data

/-- The kernel-path validity check of getLink (host-device.go line 287):
filepath.IsAbs and strings.HasPrefix with the canonical device-tree root. -/
def validKernelPath (p : String) : Bool :=
  goHasPfx p "/" && goHasPfx p "/sys/devices/"

/-- The device-name loop of getLink (host-device.go lines 267 to 271):
first configured name that netlink.LinkByName resolves. -/
def findByName (links : List Link) : List String → Option Link
  | [] => none
  | d :: rest =>
    match links.find? (fun l => l.name == d) with
    | some l => some l
    | none => findByName links rest

/-- The hardware-address loop of getLink (host-device.go lines 273 to 284):
a candidate that fails MAC parsing is logged and skipped, otherwise the
link list snapshot is scanned for an equal hardware address. -/
def findByHW (links : List Link) (parseMAC : String → Option (List Nat)) :
    List String → Option Link
  | [] => none
  | h :: rest =>
    match parseMAC h with
    | none => findByHW links parseMAC rest
    | some mac =>
      match links.find? (fun l => l.hwaddr == mac) with
      | some l => some l
      | none => findByHW links parseMAC rest

/-- The file loop inside the kernel-path branch (host-device.go lines 298 to
305): first directory entry whose name is a live link. -/
def firstFileLink (links : List Link) : List String → Option Link
  | [] => none
  | f :: rest =>
    match links.find? (fun l => l.name == f) with
    | some l => some l
    | none => firstFileLink links rest

/-- The kernel-path loop of getLink (host-device.go lines 286 to 308):
invalid paths and unreadable net directories are logged and skipped;
readDirNet models ioutil.ReadDir applied to the net subdirectory of the
path, in directory order. -/
def findByKP (links : List Link) (readDirNet : String → Option (List String)) :
    List String → Option Link
  | [] => none
  | kp :: rest =>
    if !validKernelPath kp then findByKP links readDirNet rest
    else
      match readDirNet kp with
      | none => findByKP links readDirNet rest
      | some files =>
        match firstFileLink links files with
        | some l => some l
        | none => findByKP links readDirNet rest

/-- Embedding of getLink (host-device.go lines 261 to 311): the three
selector loops in source order over one LinkList snapshot, NotFound only
when all three are exhausted. -/
def getLink (links : List Link) (parseMAC : String → Option (List Nat))
    (readDirNet : String → Option (List String))
    (devices hwaddrs kernelpaths : List String) : Except String Link :=
  match findByName links devices with
  | some l => .ok l
  | none =>
    match findByHW links parseMAC hwaddrs with
    | some l => .ok l
    | none =>
      match findByKP links readDirNet kernelpaths with
      | some l => .ok l
      | none => .error "failed to find physical interface"

/-- The converted IPAM result: only the IP list matters to the control
flow modelled here. -/
structure CniResult where
  ips : List String
deriving DecidableEq

/-- Environment for the external collaborators of the host-device plugin:
namespace opening, the IPAM delegate, result conversion and versioning,
address configuration, result printing, and the filesystem and MAC parsing
used by getLink. -/
structure AddEnv where
  nsOk : Bool
  execAdd : Except String CniResult
  convert : CniResult → Except String CniResult
  configure : Except String Unit
  getAsVersion : CniResult → Except String CniResult
  printOk : Bool
  execDel : Except String Unit
  parseMAC : String → Option (List Nat)
  readDirNet : String → Option (List String)

/-- Observable external calls of one host-device command. -/
inductive HEvent
  | execAdd
  | execDel
  | moveOut
  | printed
deriving DecidableEq

def hostLinks (w : World) : List Link :=
  w.filter (fun l => l.netns == NS.host)

/-- Embedding of the host-device cmdAdd (host-device.go lines 83 to 169).
The two deferred rollback blocks (lines 109 to 115 and 124 to 128) fire only
when the function-scoped err variable is non-nil at return time; they run in
last-in-first-out order, so on an error return after ExecAdd succeeded the
IPAM release runs before the link is moved back out.  The return paths at
lines 136 (missing IP config) and 167 (Print) leave err nil, so neither
deferred rollback runs there. -/
def cmdAdd (w : World) (env : AddEnv) (cfg : NetConf) (ifName : String) :
    Except String Unit × World × List HEvent :=
  match loadConfCheck cfg with
  | .error e => (.error e, w, [])
  | .ok c =>
    if !env.nsOk then (.error "failed to open netns", w, [])
    else
      match getLink (hostLinks w) env.parseMAC env.readDirNet c.devices c.hwaddrs c.kernelpaths with
      | .error e => (.error ("failed to find host device: " ++ e), w, [])
      | .ok hostDev =>
        match moveLinkIn w hostDev ifName with
        | (.error e, w1) => (.error ("failed to move link " ++ e), w1, [])
        | (.ok _, w1) =>
          match env.execAdd with
          | .error e =>
            let r := moveLinkOut w1 ifName
            (.error e, r.2, [.execAdd, .moveOut])
          | .ok raw =>
            match env.convert raw with
            | .error e =>
              let r := moveLinkOut w1 ifName
              (.error e, r.2, [.execAdd, .execDel, .moveOut])
            | .ok result =>
              if result.ips.length == 0 then
                (.error "IPAM plugin returned missing IP config", w1, [.execAdd])
              else
                match env.configure with
                | .error e =>
                  let r := moveLinkOut w1 ifName
                  (.error e, r.2, [.execAdd, .execDel, .moveOut])
                | .ok _ =>
                  match env.getAsVersion result with
                  | .error e =>
                    let r := moveLinkOut w1 ifName
                    (.error e, r.2, [.execAdd, .execDel, .moveOut])
                  | .ok _ =>
                    if env.printOk then (.ok (), w1, [.execAdd, .printed])
                    else (.error "print failed", w1, [.execAdd])

/-- Embedding of the host-device cmdDel (host-device.go lines 171 to 196):
validate, release the IPAM lease, and only then open the namespace and
detach the link; an ExecDel failure returns before any detach attempt. -/
def cmdDel (w : World) (env : AddEnv) (cfg : NetConf) (ifName : String) :
    Except String Unit × World × List HEvent :=
  match loadConfCheck cfg with
  | .error e => (.error e, w, [])
  | .ok _ =>
    match env.execDel with
    | .error e => (.error e, w, [.execDel])
    | .ok _ =>
      if !env.nsOk then (.error "failed to open netns", w, [.execDel])
      else
        match moveLinkOut w ifName with
        | (.error e, w1) => (.error e, w1, [.execDel, .moveOut])
        | (.ok _, w1) => (.ok (), w1, [.execDel, .moveOut])

/-- Concrete host link em1, used to instantiate the theorems below. -/
def wLinkHost : Link :=
  { idx := 1, name := "em1", linkAlias := "", hwaddr := [], up := true, netns := .host }

/-- Environment whose IPAM Add succeeds but returns a result with no IPs. -/
def wEnvNoIPs : AddEnv :=
  { nsOk := true, execAdd := .ok { ips := [] }, convert := fun r => .ok r,
    configure := .ok (), getAsVersion := fun r => .ok r, printOk := true,
    execDel := .ok (), parseMAC := fun _ => none, readDirNet := fun _ => none }

/-- Environment whose IPAM release fails. -/
def wEnvDelErr : AddEnv :=
  { wEnvNoIPs with execDel := .error "no lease" }

/-- Configuration selecting the device by name em1. -/
def wCfgDev : NetConf := { devices := ["em1"], hwaddrs := [], kernelpaths := [] }

/-- Three distinct live host links for the selector-priority instance. -/
def wLinkN1 : Link :=
  { idx := 1, name := "n1", linkAlias := "", hwaddr := [1], up := true, netns := .host }

def wLinkN2 : Link :=
  { idx := 2, name := "n2", linkAlias := "", hwaddr := [2], up := true, netns := .host }

def wLinkN3 : Link :=
  { idx := 3, name := "n3", linkAlias := "", hwaddr := [3], up := true, netns := .host }

/-- MAC parser resolving exactly the candidate m2. -/
def wParseMAC : String → Option (List Nat) :=
  fun s => if s == "m2" then some [2] else none

/-- Directory reader exposing n3 under one kernel path. -/
def wReadDir : String → Option (List String) :=
  fun p => if p == "/sys/devices/p" then some ["n3"] else none

/-- A container-side link whose alias was never set. -/
def wLinkNoAlias : Link :=
  { idx := 1, name := "eth0", linkAlias := "", hwaddr := [], up := true, netns := .container }

/-- A container-side link whose alias holds its pre-attach name. -/
def wLinkAliased : Link :=
  { idx := 1, name := "eth0", linkAlias := "em1", hwaddr := [], up := true, netns := .container }

end HostDevice

namespace Multicni

lemma getifname_ifIdx (b : String) : (getifname b).ifIdx = 0 := by
  unfold getifname
  cases h : lastDigitIndex b with
  | none => rfl
  | some idx =>
    simp only [atoi]
    split
    · rfl
    · rfl

lemma getifname_ifname (b : String) : (getifname b).ifname = b := by
  unfold getifname
  cases h : lastDigitIndex b with
  | none => rfl
  | some idx => rfl

lemma produce_zero (g : IfGen) (h : g.ifIdx = 0) :
    produce g = ((g.ifname, true), { g with ifIdx := 1 }) := by
  simp [produce, h]

lemma produce_pos (g : IfGen) (h : 1 ≤ g.ifIdx) :
    produce g = ((g.pfx ++ toString g.ifIdx, false), { g with ifIdx := g.ifIdx + 1 }) := by
  have hne : g.ifIdx ≠ 0 := by omega
  simp [produce, hne]

lemma produceList_namesFrom : ∀ (n : Nat) (g : IfGen), 1 ≤ g.ifIdx →
    produceList g n = namesFrom g.pfx g.ifIdx n := by
  intro n
  induction n with
  | zero => intro g _; rfl
  | succ m ih =>
    intro g h
    rw [produceList, produce_pos g h, namesFrom]
    simp only []
    exact congrArg _ (ih _ (show (1 : Int) ≤ g.ifIdx + 1 by omega))

/-- C2: on base name eth0 the first three produce calls yield exactly eth0,
eth1, eth2 in order, only the first marked primary, and the produced
sequence is a function of the base name and call count alone. -/
theorem C2_allocator :
    produceList (getifname "eth0") 3 = [("eth0", true), ("eth1", false), ("eth2", false)]
    ∧ ∀ (b1 b2 : String) (n : Nat), b1 = b2 →
        produceList (getifname b1) n = produceList (getifname b2) n := by
  constructor
  · decide
  · intro b1 b2 n h
    rw [h]

theorem C2_allocator_witness :
    produceList (getifname "eth0") 3 = [("eth0", true), ("eth1", false), ("eth2", false)]
    ∧ produceList (getifname "eth0") 3 = produceList (getifname "eth0") 3 :=
  ⟨C2_allocator.1, C2_allocator.2 "eth0" "eth0" 3 rfl⟩

/-- C3 counterexample: for the multi-digit base name eth10 the code does not
split off the whole trailing numeric suffix: the internal prefix is eth1,
not the non-numeric prefix eth, so the eleventh call yields eth110 where the
claimed split-and-increment scheme yields eth20. -/
theorem C3_counterexample :
    (getifname "eth10").pfx = "eth1"
    ∧ (specSplit "eth10").1 = "eth"
    ∧ (getifname "eth10").pfx ≠ (specSplit "eth10").1
    ∧ (produceList (getifname "eth10") 11).getLast? = some ("eth110", false)
    ∧ (specProduceList "eth10" 11).getLast? = some ("eth20", false)
    ∧ produceList (getifname "eth10") 11 ≠ specProduceList "eth10" 11 := by
  refine ⟨by decide, by decide, by decide, by decide, by decide, by decide⟩

/-- C3 amended: the allocator splits at the last digit occurring anywhere in
the base name, keeping everything before it as the prefix (which may itself
end in digits), and the parsed suffix value is discarded, so the counter
always starts at zero: the first call returns the exact base name marked
primary and the k-th subsequent call returns prefix concatenated with k,
marked non-primary, for every base name. -/
theorem C3_amended (b : String) (n : Nat) :
    produceList (getifname b) (n + 1)
      = (b, true) :: namesFrom (getifname b).pfx 1 n := by
  have h1 : ((getifname b).ifname, true) = (b, true) := by rw [getifname_ifname]
  have h2 := produceList_namesFrom n { getifname b with ifIdx := 1 } (le_refl (1 : Int))
  rw [produceList, produce_zero (getifname b) (getifname_ifIdx b)]
  simp only []
  rw [h1]
  exact congrArg (List.cons (b, true)) h2

lemma isOkB_ok {α : Type} (e : Except String α) (h : isOkB e = true) : ∃ s, e = .ok s := by
  cases e with
  | error _ => simp [isOkB] at h
  | ok s => exact ⟨s, rfl⟩

lemma findPlugin_cons (q : Plugin) (rest : List Plugin) (d : String) :
    findPlugin (q :: rest) d = if nameEq q d then some q else findPlugin rest d := by
  unfold findPlugin
  rw [List.find?]
  cases nameEq q d <;> simp

lemma delegateAdd_zero_ok (denv : DelegateEnv) (st : IfGen) (p : Plugin) (s : String)
    (hst : st.ifIdx = 0) (hs : denv.invokeAdd p = .ok s) :
    delegateAdd denv st p
      = (.ok (), { st with ifIdx := 1 }, [.invokedAdd p st.ifname, .printed s]) := by
  unfold delegateAdd
  rw [produce_zero st hst, hs]
  rfl

lemma delegateAdd_pos_ok (denv : DelegateEnv) (st : IfGen) (p : Plugin) (s : String)
    (hst : 1 ≤ st.ifIdx) (hs : denv.invokeAdd p = .ok s) :
    delegateAdd denv st p
      = (.ok (), { st with ifIdx := st.ifIdx + 1 },
         [.invokedAdd p (st.pfx ++ toString st.ifIdx)]) := by
  unfold delegateAdd
  rw [produce_pos st hst, hs]
  rfl

lemma delegateAdd_invoked (denv : DelegateEnv) (st : IfGen) (p : Plugin) :
    invokedAdds (delegateAdd denv st p).2.2 = [p] := by
  unfold delegateAdd
  cases denv.invokeAdd p with
  | error e => rfl
  | ok s =>
    by_cases h : (produce st).1.2 = true
    · simp only [h, if_true]
      rfl
    · simp only [h, if_false]
      rfl

lemma delegateDel_invoked (denv : DelegateEnv) (st : IfGen) (p : Plugin) :
    invokedDels (delegateDel denv st p).2.2 = [p] := by
  unfold delegateDel
  cases denv.invokeDel p with
  | error e => rfl
  | ok s => rfl

lemma addPodPlugins_ok (denv : DelegateEnv) (plugins : List Plugin) :
    ∀ (pods : List String) (plan : List Plugin) (st : IfGen),
    1 ≤ st.ifIdx →
    resolveAll plugins pods = some plan →
    (∀ p ∈ plan, isOkB (denv.invokeAdd p) = true) →
    (addPodPlugins denv plugins st pods).1 = .ok ()
    ∧ invokedAdds (addPodPlugins denv plugins st pods).2.2 = plan
    ∧ printedList (addPodPlugins denv plugins st pods).2.2 = [] := by
  intro pods
  induction pods with
  | nil =>
    intro plan st _ hres _
    simp only [resolveAll, Option.some_inj] at hres
    subst hres
    exact ⟨rfl, rfl, rfl⟩
  | cons pod rest ih =>
    intro plan st hst hres hall
    simp only [resolveAll] at hres
    cases hf : findPlugin plugins pod with
    | none => rw [hf] at hres; cases hres
    | some q =>
      rw [hf] at hres
      cases hr : resolveAll plugins rest with
      | none => rw [hr] at hres; cases hres
      | some qs =>
        rw [hr] at hres
        simp only [Option.some_inj] at hres
        subst hres
        obtain ⟨s, hs⟩ := isOkB_ok _ (hall q (by simp))
        have hrec := ih qs { st with ifIdx := st.ifIdx + 1 }
          (show (1 : Int) ≤ st.ifIdx + 1 by omega) hr
          (fun p hp => hall p (by simp [hp]))
        simp only [addPodPlugins, hf, delegateAdd_pos_ok denv st q s hst hs]
        refine ⟨hrec.1, ?_, ?_⟩
        · simp [invokedAdds, hrec.2.1]
        · simp [printedList, hrec.2.2]

lemma addPodPlugins_unresolved (denv : DelegateEnv) (plugins : List Plugin) :
    ∀ (pods : List String) (st : IfGen),
    (∃ pod, pod ∈ pods ∧ findPlugin plugins pod = none) →
    ∃ e, (addPodPlugins denv plugins st pods).1 = .error e := by
  intro pods
  induction pods with
  | nil =>
    intro st ⟨pod, hmem, _⟩
    cases hmem
  | cons pod rest ih =>
    intro st ⟨q, hmem, hq⟩
    cases hf : findPlugin plugins pod with
    | none =>
      refine ⟨"failed to find plugin: " ++ pod, ?_⟩
      simp [addPodPlugins, hf]
    | some p =>
      have hqrest : q ∈ rest := by
        cases List.mem_cons.mp hmem with
        | inl h => subst h; rw [hf] at hq; cases hq
        | inr h => exact h
      rcases hd : delegateAdd denv st p with ⟨r1, st1, evs⟩
      cases r1 with
      | error e =>
        refine ⟨e, ?_⟩
        simp [addPodPlugins, hf, hd]
      | ok u =>
        obtain ⟨e, he⟩ := ih st1 ⟨q, hqrest, hq⟩
        refine ⟨e, ?_⟩
        simp [addPodPlugins, hf, hd, he]

lemma delPodPlugins_unresolved (denv : DelegateEnv) (plugins : List Plugin) :
    ∀ (pods : List String) (st : IfGen),
    (∃ pod, pod ∈ pods ∧ findPlugin plugins pod = none) →
    ∃ e, (delPodPlugins denv plugins st pods).1 = .error e := by
  intro pods
  induction pods with
  | nil =>
    intro st ⟨pod, hmem, _⟩
    cases hmem
  | cons pod rest ih =>
    intro st ⟨q, hmem, hq⟩
    cases hf : findPlugin plugins pod with
    | none =>
      refine ⟨"failed to find plugin: " ++ pod, ?_⟩
      simp [delPodPlugins, hf]
    | some p =>
      have hqrest : q ∈ rest := by
        cases List.mem_cons.mp hmem with
        | inl h => subst h; rw [hf] at hq; cases hq
        | inr h => exact h
      rcases hd : delegateDel denv st p with ⟨r1, st1, evs⟩
      cases r1 with
      | error e =>
        refine ⟨e, ?_⟩
        simp [delPodPlugins, hf, hd]
      | ok u =>
        obtain ⟨e, he⟩ := ih st1 ⟨q, hqrest, hq⟩
        refine ⟨e, ?_⟩
        simp [delPodPlugins, hf, hd, he]

lemma addDefault_none (denv : DelegateEnv) (d : String) :
    ∀ (ps : List Plugin) (st : IfGen), findPlugin ps d = none →
    addDefault denv d st ps = (.ok (), st, []) := by
  intro ps
  induction ps with
  | nil => intro st _; rfl
  | cons p rest ih =>
    intro st h
    rw [findPlugin_cons] at h
    cases hne : nameEq p d with
    | true => rw [hne] at h; simp at h
    | false =>
      rw [hne] at h
      simp at h
      simp [addDefault, hne]
      exact ih st h

lemma delDefault_none (denv : DelegateEnv) (d : String) :
    ∀ (ps : List Plugin) (st : IfGen), findPlugin ps d = none →
    delDefault denv d st ps = (.ok (), st, []) := by
  intro ps
  induction ps with
  | nil => intro st _; rfl
  | cons p rest ih =>
    intro st h
    rw [findPlugin_cons] at h
    cases hne : nameEq p d with
    | true => rw [hne] at h; simp at h
    | false =>
      rw [hne] at h
      simp at h
      simp [delDefault, hne]
      exact ih st h

lemma addDefault_some (denv : DelegateEnv) (d : String) :
    ∀ (ps : List Plugin) (st : IfGen) (p : Plugin), findPlugin ps d = some p →
    invokedAdds (addDefault denv d st ps).2.2 = [p] := by
  intro ps
  induction ps with
  | nil => intro st p h; cases h
  | cons q rest ih =>
    intro st p h
    rw [findPlugin_cons] at h
    cases hq : nameEq q d with
    | false =>
      rw [hq] at h
      simp at h
      simp [addDefault, hq]
      exact ih st p h
    | true =>
      rw [hq] at h
      simp at h
      subst h
      simp only [addDefault, hq, if_true]
      rcases hd : delegateAdd denv st q with ⟨r1, st1, evs⟩
      have hinv : invokedAdds evs = [q] := by
        have := delegateAdd_invoked denv st q
        rw [hd] at this
        exact this
      cases r1 with
      | error e => simpa using hinv
      | ok u => simpa using hinv

lemma delDefault_some (denv : DelegateEnv) (d : String) :
    ∀ (ps : List Plugin) (st : IfGen) (p : Plugin), findPlugin ps d = some p →
    invokedDels (delDefault denv d st ps).2.2 = [p] := by
  intro ps
  induction ps with
  | nil => intro st p h; cases h
  | cons q rest ih =>
    intro st p h
    rw [findPlugin_cons] at h
    cases hq : nameEq q d with
    | false =>
      rw [hq] at h
      simp at h
      simp [delDefault, hq]
      exact ih st p h
    | true =>
      rw [hq] at h
      simp at h
      subst h
      simp only [delDefault, hq, if_true]
      rcases hd : delegateDel denv st q with ⟨r1, st1, evs⟩
      have hinv : invokedDels evs = [q] := by
        have := delegateDel_invoked denv st q
        rw [hd] at this
        exact this
      cases r1 with
      | error e => simpa using hinv
      | ok u => simpa using hinv

lemma getPodPlugins_degraded (menv : MetaEnv)
    (h : menv.clientOk = false ∨ ∃ e, menv.annots = .error e) :
    getPodPlugins menv = .ok [] := by
  unfold getPodPlugins
  rcases h with h | ⟨e, h⟩
  · simp [h]
  · rw [h]
    split <;> rfl

lemma cmdAdd_meta (conf : NetConf) (denv : DelegateEnv) (ifName : String)
    (m1 m2 : MetaEnv) (h : getPodPlugins m1 = getPodPlugins m2) :
    cmdAdd conf m1 denv ifName = cmdAdd conf m2 denv ifName := by
  unfold cmdAdd
  rw [h]

lemma cmdDel_meta (conf : NetConf) (denv : DelegateEnv) (ifName : String)
    (m1 m2 : MetaEnv) (h : getPodPlugins m1 = getPodPlugins m2) :
    cmdDel conf m1 denv ifName = cmdDel conf m2 denv ifName := by
  unfold cmdDel
  rw [h]

lemma getPodPlugins_parse_err (menv : MetaEnv) (annot : List (String × String)) (v : String)
    (hc : menv.clientOk = true) (ha : menv.annots = .ok annot)
    (hv : alookup annot "cni-plugins" = v) (hvne : v ≠ "")
    (hu : menv.unmarshalStrings v = none) :
    getPodPlugins menv = .error ("Multicni: Err in pod annotation cni-plugins: " ++ v) := by
  unfold getPodPlugins parsePodNetworkObject
  rw [hc, ha]
  simp only [hv, if_true]
  have hvb : (v != "") = true := by simp [bne_iff_ne, hvne]
  rw [hvb, hu]
  simp

/-- C5 counterexample: with a reachable metadata source whose cni-plugins
annotation is present but unparsable, cmdAdd surfaces an error to the
caller instead of degrading to the default plugin. -/
theorem C5_counterexample :
    cmdAdd { deflt := "a", plugins := [[("name", .str "a"), ("type", .str "t")]] }
        { clientOk := true, annots := .ok [("cni-plugins", "notjson")],
          unmarshalStrings := fun _ => none }
        { invokeAdd := fun _ => .ok "res", invokeDel := fun _ => .ok () } "eth0"
      = (.error "Multicni: Err in pod annotation cni-plugins: notjson", []) := by
  rfl

/-- C5 amended: a failure to create the metadata client or to fetch the pod
annotations is recovered locally and the invocation degrades to the
empty-dynamic-list behavior for both Add and Del; but a present, non-empty
cni-plugins annotation that fails to parse is surfaced to the caller as a
fatal error. -/
theorem C5_amended :
    ∀ (conf : NetConf) (menv : MetaEnv) (denv : DelegateEnv) (ifName : String),
    ((menv.clientOk = false ∨ ∃ e, menv.annots = .error e) →
        cmdAdd conf menv denv ifName = cmdAdd conf degradedMeta denv ifName
        ∧ cmdDel conf menv denv ifName = cmdDel conf degradedMeta denv ifName)
    ∧ (∀ (annot : List (String × String)) (v : String),
        menv.clientOk = true → menv.annots = .ok annot →
        alookup annot "cni-plugins" = v → v ≠ "" →
        menv.unmarshalStrings v = none →
        loadNetConfCheck conf = .ok conf →
        checkPlugins conf.plugins = .ok () →
        (cmdAdd conf menv denv ifName).1
            = .error ("Multicni: Err in pod annotation cni-plugins: " ++ v)
        ∧ (cmdDel conf menv denv ifName).1
            = .error ("Multicni: Err in pod annotation cni-plugins: " ++ v)) := by
  intro conf menv denv ifName
  constructor
  · intro h
    have hd : getPodPlugins menv = getPodPlugins degradedMeta := by
      rw [getPodPlugins_degraded menv h]
      rfl
    exact ⟨cmdAdd_meta conf denv ifName menv degradedMeta hd,
           cmdDel_meta conf denv ifName menv degradedMeta hd⟩
  · intro annot v hc ha hv hvne hu hload hchk
    have hg := getPodPlugins_parse_err menv annot v hc ha hv hvne hu
    constructor
    · simp [cmdAdd, hload, hchk, hg]
    · simp [cmdDel, hload, hchk, hg]

theorem C5_amended_witness :
    (cmdAdd wConfCA
        { clientOk := false, annots := .ok [], unmarshalStrings := fun _ => none }
        wDenv "eth0"
      = cmdAdd wConfCA degradedMeta wDenv "eth0")
    ∧ (cmdAdd wConfCA
        { clientOk := true, annots := .ok [("cni-plugins", "zz")],
          unmarshalStrings := fun _ => none }
        wDenv "eth0").1
      = .error "Multicni: Err in pod annotation cni-plugins: zz" :=
  ⟨((C5_amended wConfCA
      { clientOk := false, annots := .ok [], unmarshalStrings := fun _ => none }
      wDenv "eth0").1 (Or.inl rfl)).1,
   ((C5_amended wConfCA
      { clientOk := true, annots := .ok [("cni-plugins", "zz")],
        unmarshalStrings := fun _ => none }
      wDenv "eth0").2 [("cni-plugins", "zz")] "zz" rfl rfl rfl (by decide) rfl rfl rfl).1⟩

/-- C6: with a non-empty dynamic plugin-name list, each name is resolved
against the static set in list order and any name that resolves to no
static entry makes the whole Add or Del invocation fail; with an empty
dynamic list the only delegate invoked is the first static entry whose
name equals the configured default. -/
theorem C6_selection :
    ∀ (conf : NetConf) (menv : MetaEnv) (denv : DelegateEnv) (ifName : String)
      (pods : List String),
    loadNetConfCheck conf = .ok conf →
    checkPlugins conf.plugins = .ok () →
    getPodPlugins menv = .ok pods →
    ((∃ pod, pod ∈ pods ∧ findPlugin conf.plugins pod = none) →
        isOkB (cmdAdd conf menv denv ifName).1 = false
        ∧ isOkB (cmdDel conf menv denv ifName).1 = false)
    ∧ (pods = [] → ∀ p, findPlugin conf.plugins conf.deflt = some p →
        invokedAdds (cmdAdd conf menv denv ifName).2 = [p]
        ∧ invokedDels (cmdDel conf menv denv ifName).2 = [p]) := by
  intro conf menv denv ifName pods hload hchk hmeta
  constructor
  · intro hex
    cases pods with
    | nil =>
      obtain ⟨q, hmem, _⟩ := hex
      cases hmem
    | cons pod rest =>
      obtain ⟨e1, he1⟩ :=
        addPodPlugins_unresolved denv conf.plugins (pod :: rest) (getifname ifName) hex
      obtain ⟨e2, he2⟩ :=
        delPodPlugins_unresolved denv conf.plugins (pod :: rest) (getifname ifName) hex
      constructor
      · simp [cmdAdd, hload, hchk, hmeta, he1, isOkB]
      · simp [cmdDel, hload, hchk, hmeta, he2, isOkB]
  · intro hemp p hp
    subst hemp
    constructor
    · have h := addDefault_some denv conf.deflt conf.plugins (getifname ifName) p hp
      simpa [cmdAdd, hload, hchk, hmeta] using h
    · have h := delDefault_some denv conf.deflt conf.plugins (getifname ifName) p hp
      simpa [cmdDel, hload, hchk, hmeta] using h

theorem C6_selection_witness :
    (isOkB (cmdAdd wConfCA wMetaMissing wDenv "eth0").1 = false
     ∧ isOkB (cmdDel wConfCA wMetaMissing wDenv "eth0").1 = false)
    ∧ (invokedAdds (cmdAdd wConfCA degradedMeta wDenv "eth0").2 = [wPlugA]
       ∧ invokedDels (cmdDel wConfCA degradedMeta wDenv "eth0").2 = [wPlugA]) :=
  ⟨(C6_selection wConfCA wMetaMissing wDenv "eth0" ["missing"] rfl rfl rfl).1
      ⟨"missing", by simp, rfl⟩,
   (C6_selection wConfCA degradedMeta wDenv "eth0" [] rfl rfl rfl).2 rfl wPlugA rfl⟩

/-- C7: over a multi-entry plan the delegates are invoked in plan order and
only the first invocation — the one whose allocated interface name the
allocator marked primary — has its result printed to the caller; every
other result is discarded. -/
theorem C7_primary_result :
    ∀ (conf : NetConf) (menv : MetaEnv) (denv : DelegateEnv) (ifName : String)
      (pod : String) (rest : List String) (p : Plugin) (plan : List Plugin),
    loadNetConfCheck conf = .ok conf →
    checkPlugins conf.plugins = .ok () →
    getPodPlugins menv = .ok (pod :: rest) →
    findPlugin conf.plugins pod = some p →
    resolveAll conf.plugins rest = some plan →
    (∀ q ∈ p :: plan, isOkB (denv.invokeAdd q) = true) →
    (cmdAdd conf menv denv ifName).1 = .ok ()
    ∧ invokedAdds (cmdAdd conf menv denv ifName).2 = p :: plan
    ∧ printedList (cmdAdd conf menv denv ifName).2 = [okStr (denv.invokeAdd p)] := by
  intro conf menv denv ifName pod rest p plan hload hchk hmeta hf hres hall
  obtain ⟨s, hs⟩ := isOkB_ok _ (hall p (by simp))
  have hzero := delegateAdd_zero_ok denv (getifname ifName) p s (getifname_ifIdx ifName) hs
  have hrec := addPodPlugins_ok denv conf.plugins rest plan
      { getifname ifName with ifIdx := 1 } (le_refl (1 : Int)) hres
      (fun q hq => hall q (by simp [hq]))
  have hstep : addPodPlugins denv conf.plugins (getifname ifName) (pod :: rest)
      = ((addPodPlugins denv conf.plugins { getifname ifName with ifIdx := 1 } rest).1,
         (addPodPlugins denv conf.plugins { getifname ifName with ifIdx := 1 } rest).2.1,
         [Event.invokedAdd p (getifname ifName).ifname, Event.printed s]
           ++ (addPodPlugins denv conf.plugins { getifname ifName with ifIdx := 1 } rest).2.2) := by
    simp [addPodPlugins, hf, hzero]
  refine ⟨?_, ?_, ?_⟩
  · simp [cmdAdd, hload, hchk, hmeta, hstep, hrec.1]
  · simp [cmdAdd, hload, hchk, hmeta, hstep, invokedAdds, hrec.2.1]
  · simp [cmdAdd, hload, hchk, hmeta, hstep, printedList, hrec.2.2, okStr, hs]

theorem C7_primary_result_witness :
    (cmdAdd wConfCA wMetaCA wDenv "eth0").1 = .ok ()
    ∧ invokedAdds (cmdAdd wConfCA wMetaCA wDenv "eth0").2 = [wPlugC, wPlugA]
    ∧ printedList (cmdAdd wConfCA wMetaCA wDenv "eth0").2 = ["res-C"] := by
  have h := C7_primary_result wConfCA wMetaCA wDenv "eth0" "C" ["A"] wPlugC [wPlugA]
      rfl rfl rfl rfl rfl (by intro q _; rfl)
  exact ⟨h.1, h.2.1, by rw [h.2.2]; rfl⟩

/-- C10: with an empty dynamic list and no static entry named like the
configured default, both Add and Del return success while invoking no
delegate at all and printing no result document. -/
theorem C10_no_default :
    ∀ (conf : NetConf) (menv : MetaEnv) (denv : DelegateEnv) (ifName : String),
    loadNetConfCheck conf = .ok conf →
    checkPlugins conf.plugins = .ok () →
    getPodPlugins menv = .ok [] →
    findPlugin conf.plugins conf.deflt = none →
    cmdAdd conf menv denv ifName = (.ok (), [])
    ∧ cmdDel conf menv denv ifName = (.ok (), []) := by
  intro conf menv denv ifName hload hchk hmeta hnone
  constructor
  · simp [cmdAdd, hload, hchk, hmeta,
      addDefault_none denv conf.deflt conf.plugins (getifname ifName) hnone]
  · simp [cmdDel, hload, hchk, hmeta,
      delDefault_none denv conf.deflt conf.plugins (getifname ifName) hnone]

theorem C10_no_default_witness :
    cmdAdd wConfZ degradedMeta wDenv "eth0" = (.ok (), [])
    ∧ cmdDel wConfZ degradedMeta wDenv "eth0" = (.ok (), []) :=
  C10_no_default wConfZ degradedMeta wDenv "eth0" rfl rfl rfl rfl

end Multicni

namespace HostDevice

lemma updateIdx_map_proj (w : World) (i : Nat) :
    (updateIdx w i (fun l => { l with up := false })).map (fun l => (l.idx, l.name, l.netns))
      = w.map (fun l => (l.idx, l.name, l.netns)) := by
  unfold updateIdx
  rw [List.map_map]
  apply List.map_congr_left
  intro b _
  by_cases hb : b.idx = i
  · simp [hb]
  · simp [hb]

/-- C1: evaluation of cmdAdd at a state where namespace migration succeeds
and the IPAM delegate returns a result with no IPs: the command returns the
missing-IP-config error yet leaves the device inside the container
namespace under the container name, because the return path at
host-device.go line 136 never assigns the function-scoped err variable and
the deferred rollback of line 109 therefore does not run. -/
theorem C1_eval :
    cmdAdd [wLinkHost] wEnvNoIPs wCfgDev "eth5"
      = (.error "IPAM plugin returned missing IP config",
         [{ idx := 1, name := "eth5", linkAlias := "em1", hwaddr := [], up := false,
            netns := .container }],
         [.execAdd])
    ∧ linkByName (cmdAdd [wLinkHost] wEnvNoIPs wCfgDev "eth5").2.1 .host "em1" = none :=
  ⟨rfl, rfl⟩

/-- C4: getLink tries name, hardware-address and kernel-path selectors in
that order: when the three categories match three different live links the
name match wins; in general the result is the first category match in that
order and NotFound is returned only once all three categories are
exhausted. -/
theorem C4_getLink_priority :
    ∀ (links : List Link) (parseMAC : String → Option (List Nat))
      (readDirNet : String → Option (List String))
      (devices hwaddrs kernelpaths : List String),
    (∀ A B C : Link,
        findByName links devices = some A →
        findByHW links parseMAC hwaddrs = some B →
        findByKP links readDirNet kernelpaths = some C →
        A ≠ B → B ≠ C → A ≠ C →
        getLink links parseMAC readDirNet devices hwaddrs kernelpaths = .ok A)
    ∧ (∀ l, findByName links devices = some l →
        getLink links parseMAC readDirNet devices hwaddrs kernelpaths = .ok l)
    ∧ (findByName links devices = none →
        ∀ l, findByHW links parseMAC hwaddrs = some l →
        getLink links parseMAC readDirNet devices hwaddrs kernelpaths = .ok l)
    ∧ (findByName links devices = none →
        findByHW links parseMAC hwaddrs = none →
        ∀ l, findByKP links readDirNet kernelpaths = some l →
        getLink links parseMAC readDirNet devices hwaddrs kernelpaths = .ok l)
    ∧ (findByName links devices = none →
        findByHW links parseMAC hwaddrs = none →
        findByKP links readDirNet kernelpaths = none →
        getLink links parseMAC readDirNet devices hwaddrs kernelpaths
          = .error "failed to find physical interface") := by
  intro links parseMAC readDirNet devices hwaddrs kernelpaths
  refine ⟨?_, ?_, ?_, ?_, ?_⟩
  · intro A B C h1 _ _ _ _ _
    simp [getLink, h1]
  · intro l h1
    simp [getLink, h1]
  · intro h1 l h2
    simp [getLink, h1, h2]
  · intro h1 h2 l h3
    simp [getLink, h1, h2, h3]
  · intro h1 h2 h3
    simp [getLink, h1, h2, h3]

theorem C4_getLink_priority_witness :
    getLink [wLinkN1, wLinkN2, wLinkN3] wParseMAC wReadDir
        ["n1"] ["m2"] ["/sys/devices/p"] = .ok wLinkN1 :=
  (C4_getLink_priority [wLinkN1, wLinkN2, wLinkN3] wParseMAC wReadDir
      ["n1"] ["m2"] ["/sys/devices/p"]).1 wLinkN1 wLinkN2 wLinkN3
    rfl rfl rfl (by decide) (by decide) (by decide)

/-- C8: the single-device Del calls the IPAM release before any detach
attempt: under a valid configuration the event trace always begins with the
ExecDel call, and an ExecDel failure aborts the command with that error,
with the world unchanged and no detach attempted. -/
theorem C8_del_order :
    ∀ (w : World) (env : AddEnv) (cfg : NetConf) (ifName : String),
    loadConfCheck cfg = .ok cfg →
    ((∀ e, env.execDel = .error e →
        cmdDel w env cfg ifName = (.error e, w, [.execDel]))
     ∧ ∃ t, (cmdDel w env cfg ifName).2.2 = HEvent.execDel :: t) := by
  intro w env cfg ifName hload
  constructor
  · intro e he
    simp [cmdDel, hload, he]
  · cases he : env.execDel with
    | error e => exact ⟨[], by simp [cmdDel, hload, he]⟩
    | ok u =>
      by_cases hns : env.nsOk = true
      · rcases hm : moveLinkOut w ifName with ⟨r1, w1⟩
        cases r1 with
        | error e2 => exact ⟨[.moveOut], by simp [cmdDel, hload, he, hns, hm]⟩
        | ok u2 => exact ⟨[.moveOut], by simp [cmdDel, hload, he, hns, hm]⟩
      · exact ⟨[], by simp [cmdDel, hload, he, hns]⟩

theorem C8_del_order_witness :
    cmdDel [wLinkHost] wEnvDelErr wCfgDev "eth5" = (.error "no lease", [wLinkHost], [.execDel])
    ∧ ∃ t, (cmdDel [wLinkHost] wEnvDelErr wCfgDev "eth5").2.2 = HEvent.execDel :: t :=
  ⟨(C8_del_order [wLinkHost] wEnvDelErr wCfgDev "eth5" rfl).1 "no lease" rfl,
   (C8_del_order [wLinkHost] wEnvDelErr wCfgDev "eth5" rfl).2⟩

/-- C9: detaching a container-side link whose stored alias is empty fails —
the kernel rejects the rename to the empty string — and leaves the index,
name and namespace of every link unchanged; and whenever a detach succeeds,
the resolved container link had a non-empty alias, so the pre-attach name
was recoverable from it. -/
theorem C9_alias_required :
    (∀ (w : World) (ifName : String) (dev : Link),
        linkByName w .container ifName = some dev → dev.linkAlias = "" →
        (∃ e, (moveLinkOut w ifName).1 = .error e)
        ∧ (moveLinkOut w ifName).2.map (fun l => (l.idx, l.name, l.netns))
            = w.map (fun l => (l.idx, l.name, l.netns)))
    ∧ (∀ (w : World) (ifName : String),
        (moveLinkOut w ifName).1 = .ok () →
        ∃ dev, linkByName w .container ifName = some dev ∧ dev.linkAlias ≠ "") := by
  constructor
  · intro w ifName dev hby hal
    have hmem : dev ∈ w := List.mem_of_find?_eq_some hby
    have hsome : (findIdx w dev.idx).isSome := by
      unfold findIdx
      exact List.find?_isSome.mpr ⟨dev, hmem, by simp⟩
    obtain ⟨l0, hl0⟩ := Option.isSome_iff_exists.mp hsome
    have hdown : linkSetDown w dev.idx
        = (.ok (), updateIdx w dev.idx (fun l => { l with up := false })) := by
      simp [linkSetDown, hl0]
    have hname : ∃ e, linkSetName (updateIdx w dev.idx (fun l => { l with up := false }))
        dev.idx "" = (.error e, updateIdx w dev.idx (fun l => { l with up := false })) := by
      unfold linkSetName
      cases findIdx (updateIdx w dev.idx (fun l => { l with up := false })) dev.idx with
      | none => exact ⟨_, rfl⟩
      | some l => exact ⟨"invalid interface name", by simp [devValidName]⟩
    obtain ⟨e, he⟩ := hname
    have hrun : moveLinkOut w ifName
        = (.error e, updateIdx w dev.idx (fun l => { l with up := false })) := by
      simp [moveLinkOut, hby, hdown, hal, he]
    constructor
    · exact ⟨e, by rw [hrun]⟩
    · rw [hrun]
      exact updateIdx_map_proj w dev.idx
  · intro w ifName hok
    cases hby : linkByName w .container ifName with
    | none => simp [moveLinkOut, hby] at hok
    | some dev =>
      rcases hdown : linkSetDown w dev.idx with ⟨rd, w1⟩
      cases rd with
      | error e => simp [moveLinkOut, hby, hdown] at hok
      | ok u =>
        rcases hname : linkSetName w1 dev.idx dev.linkAlias with ⟨rn, w2⟩
        cases rn with
        | error e => simp [moveLinkOut, hby, hdown, hname] at hok
        | ok u2 =>
          refine ⟨dev, rfl, ?_⟩
          intro hal
          rw [hal] at hname
          unfold linkSetName at hname
          cases hfi : findIdx w1 dev.idx with
          | none => rw [hfi] at hname; simp at hname
          | some l => rw [hfi] at hname; simp [devValidName] at hname

theorem C9_alias_required_witness :
    ((∃ e, (moveLinkOut [wLinkNoAlias] "eth0").1 = .error e)
     ∧ (moveLinkOut [wLinkNoAlias] "eth0").2.map (fun l => (l.idx, l.name, l.netns))
         = [wLinkNoAlias].map (fun l => (l.idx, l.name, l.netns)))
    ∧ ∃ dev, linkByName [wLinkAliased] .container "eth0" = some dev ∧ dev.linkAlias ≠ "" :=
  ⟨C9_alias_required.1 [wLinkNoAlias] "eth0" wLinkNoAlias rfl rfl,
   C9_alias_required.2 [wLinkAliased] "eth0" rfl⟩

end HostDevice
